import Mathlib

/-!
Shallow embedding of the cgr class-file decoder (src/classfile.rs and
src/instruction.rs) and proofs about it.

Bytes are modelled as `Nat` (a real input byte is < 256; no definition below
depends on that bound).  A nom parser `fn(&[u8]) -> IResult<&[u8], T>` becomes
a function `List Nat → PResult T`: `ok rest val` is `Ok((rest, val))`,
`err k` is `Err(nom::Err::Error(e))` with `e.code = k`, and `panic` is an
unrecoverable process abort (`panic!`, `unreachable!`, a slice-index failure,
or a checked-arithmetic overflow in a debug build).  The nom `Error` type's
`append` implementation returns the inner error unchanged, so `count` and
`many1` propagate the error kind produced by the failing sub-parser.
-/

namespace Cgr

abbrev Bytes := List Nat

/-- The nom `ErrorKind`s this decoder can produce: `Eof` from every complete
primitive on exhausted input, `Verify` from the Utf8 constant branch, `Fail`
from the attribute-name resolution, `Many1` from `many1`'s zero-consumption
guard (never actually reached here). -/
inductive ErrKind where
  | Eof
  | Verify
  | Fail
  | Many1
  deriving DecidableEq

/-- Outcome of running a parser: success with remaining input, a typed nom
error, or a process abort. -/
inductive PResult (α : Type) where
  | ok (rest : Bytes) (val : α)
  | err (k : ErrKind)
  | panic
  deriving DecidableEq

abbrev Parser (α : Type) := Bytes → PResult α

def ppure (a : α) : Parser α := fun input => .ok input a

def pfail (k : ErrKind) : Parser α := fun _ => .err k

def ppanic : Parser α := fun _ => .panic

/-- Sequencing of parsers; errors and aborts propagate. -/
def pbind (p : Parser α) (f : α → Parser β) : Parser β := fun input =>
  match p input with
  | .ok rest a => f a rest
  | .err k => .err k
  | .panic => .panic

/-- nom::number::complete::u8 -/
def u8P : Parser Nat := fun input =>
  match input with
  | [] => .err .Eof
  | b :: rest => .ok rest b

/-- nom::number::complete::be_u16 -/
def be_u16P : Parser Nat := fun input =>
  match input with
  | b0 :: b1 :: rest => .ok rest (b0 * 256 + b1)
  | _ => .err .Eof

/-- nom::number::complete::be_u32 -/
def be_u32P : Parser Nat := fun input =>
  match input with
  | b0 :: b1 :: b2 :: b3 :: rest =>
      .ok rest (((b0 * 256 + b1) * 256 + b2) * 256 + b3)
  | _ => .err .Eof

/-- nom::bytes::complete::take -/
def takeP (n : Nat) : Parser Bytes := fun input =>
  if n ≤ input.length then .ok (input.drop n) (input.take n) else .err .Eof

/-- nom::multi::count: run the parser exactly n times; the first error or
abort stops the whole run (nom's default Error `append` keeps the inner
error's kind). -/
def countP (p : Parser α) : Nat → Parser (List α)
  | 0 => ppure []
  | n + 1 => pbind p fun a => pbind (countP p n) fun as => ppure (a :: as)

/-- Models the external cesu8 crate's `from_java_cesu8` (a dependency of the
repository, not repository code): decode Java modified UTF-8 bytes into a
sequence of Unicode scalar values, or fail.  The theorems below depend only
on this being a pure total function of the byte range.  `fuel` is at least
the number of bytes, and each step consumes at least one byte, so the
fuel-exhaustion branch is unreachable from `cesu8Decode`. -/
def cesu8Go : Nat → Bytes → Option (List Nat)
  | _, [] => some []
  | 0, _ :: _ => none
  | f + 1, b :: rest =>
    if 1 ≤ b ∧ b ≤ 0x7f then
      (cesu8Go f rest).map (fun s => b :: s)
    else if 0xc0 ≤ b ∧ b ≤ 0xdf then
      match rest with
      | b1 :: r2 =>
        if 0x80 ≤ b1 ∧ b1 ≤ 0xbf then
          (cesu8Go f r2).map (fun s => (b % 0x20 * 0x40 + b1 % 0x40) :: s)
        else none
      | [] => none
    else if 0xe0 ≤ b ∧ b ≤ 0xef then
      match rest with
      | b1 :: b2 :: r3 =>
        if 0x80 ≤ b1 ∧ b1 ≤ 0xbf ∧ 0x80 ≤ b2 ∧ b2 ≤ 0xbf then
          if b = 0xed ∧ 0xa0 ≤ b1 ∧ b1 ≤ 0xaf then
            match r3 with
            | c0 :: c1 :: c2 :: r6 =>
              if c0 = 0xed ∧ 0xb0 ≤ c1 ∧ c1 ≤ 0xbf ∧ 0x80 ≤ c2 ∧ c2 ≤ 0xbf then
                (cesu8Go f r6).map (fun s =>
                  (0x10000 + b1 % 0x10 * 0x10000 + b2 % 0x40 * 0x400 +
                    c1 % 0x10 * 0x40 + c2 % 0x40) :: s)
              else none
            | _ => none
          else
            (cesu8Go f r3).map (fun s =>
              (b % 0x10 * 0x1000 + b1 % 0x40 * 0x40 + b2 % 0x40) :: s)
        else none
      | _ => none
    else none

def cesu8Decode (bs : Bytes) : Option (List Nat) := cesu8Go bs.length bs

/-- `enum CpInfo` from src/classfile.rs.  The `Utf8` payload is the decoded
scalar-value sequence (the Rust `Box<str>`). -/
inductive CpInfo where
  | Class (name_index : Nat)
  | FieldRef (class_index name_and_type_index : Nat)
  | MethodRef (class_index name_and_type_index : Nat)
  | InterfaceMethodRef (class_index name_and_type_index : Nat)
  | String (string_index : Nat)
  | Integer (bytes : Nat)
  | Float (bytes : Nat)
  | Long (high_bytes low_bytes : Nat)
  | Double (high_bytes low_bytes : Nat)
  | NameAndType (name_index descriptor_index : Nat)
  | Utf8 (value : List Nat)
  | MethodHandle (reference_kind reference_index : Nat)
  | MethodType (descriptor_index : Nat)
  | InvokeDynamic (bootstrap_method_attr_index name_and_type_index : Nat)
  deriving DecidableEq

/-- `CpInfo::read`: one tag byte, then the tag's fixed layout.  The Rust
match arm order (7, 9, 10, 11, 8, 3, 4, 5, 6, 12, 1, 15, 16, 18) is kept;
`_ => unreachable!()` is an abort. -/
def CpInfo.read : Parser CpInfo :=
  pbind u8P fun tag =>
  if tag = 7 then
    pbind be_u16P fun name_index => ppure (.Class name_index)
  else if tag = 9 then
    pbind be_u16P fun class_index => pbind be_u16P fun nat_index =>
    ppure (.FieldRef class_index nat_index)
  else if tag = 10 then
    pbind be_u16P fun class_index => pbind be_u16P fun nat_index =>
    ppure (.MethodRef class_index nat_index)
  else if tag = 11 then
    pbind be_u16P fun class_index => pbind be_u16P fun nat_index =>
    ppure (.InterfaceMethodRef class_index nat_index)
  else if tag = 8 then
    pbind be_u16P fun string_index => ppure (.String string_index)
  else if tag = 3 then
    pbind be_u32P fun bytes => ppure (.Integer bytes)
  else if tag = 4 then
    pbind be_u32P fun bytes => ppure (.Float bytes)
  else if tag = 5 then
    pbind be_u32P fun high_bytes => pbind be_u32P fun low_bytes =>
    ppure (.Long high_bytes low_bytes)
  else if tag = 6 then
    pbind be_u32P fun high_bytes => pbind be_u32P fun low_bytes =>
    ppure (.Double high_bytes low_bytes)
  else if tag = 12 then
    pbind be_u16P fun name_index => pbind be_u16P fun descriptor_index =>
    ppure (.NameAndType name_index descriptor_index)
  else if tag = 1 then
    pbind be_u16P fun length =>
    pbind (takeP length) fun bytes =>
    match cesu8Decode bytes with
    | some s => ppure (.Utf8 s)
    | none => pfail .Verify
  else if tag = 15 then
    pbind u8P fun reference_kind => pbind be_u16P fun reference_index =>
    ppure (.MethodHandle reference_kind reference_index)
  else if tag = 16 then
    pbind be_u16P fun descriptor_index => ppure (.MethodType descriptor_index)
  else if tag = 18 then
    pbind be_u16P fun bootstrap_index => pbind be_u16P fun nat_index =>
    ppure (.InvokeDynamic bootstrap_index nat_index)
  else ppanic

/-- `enum Instruction` from src/instruction.rs. -/
inductive Instruction where
  | Aload0
  | Aload1
  | Aload2
  | Aload3
  | Return
  | Invokespecial (indexbyte1 indexbyte2 : Nat)
  deriving DecidableEq

/-- `Instruction::read`: one opcode byte, then that opcode's operands.  The
source maps byte 42 to `Aload2` (not `Aload0`); `_ => panic!("unknown
command")` is an abort. -/
def Instruction.read : Parser Instruction :=
  pbind u8P fun instruction =>
  if instruction = 42 then ppure .Aload2
  else if instruction = 43 then ppure .Aload1
  else if instruction = 44 then ppure .Aload2
  else if instruction = 45 then ppure .Aload3
  else if instruction = 177 then ppure .Return
  else if instruction = 183 then
    pbind u8P fun indexbyte1 => pbind u8P fun indexbyte2 =>
    ppure (.Invokespecial indexbyte1 indexbyte2)
  else ppanic

/-- The iteration of nom::multi::many1 after its first success: stop with
success on a later `Err::Error`, propagate aborts, and fail with `Many1` if
an iteration consumes nothing (unreachable for `Instruction.read`, which
always consumes its opcode byte).  `fuel` exceeds the input length at every
call, so the fuel-exhaustion branch is unreachable. -/
def many1Loop : Nat → List Instruction → Bytes → PResult (List Instruction)
  | 0, _, _ => .err .Many1
  | fuel + 1, acc, i =>
    match Instruction.read i with
    | .err _ => .ok i acc.reverse
    | .panic => .panic
    | .ok i1 o =>
      if i1.length = i.length then .err .Many1
      else many1Loop fuel (o :: acc) i1

/-- nom::multi::many1 applied to `Instruction::read`. -/
def many1Insts : Parser (List Instruction) := fun i =>
  match Instruction.read i with
  | .err k => .err k
  | .panic => .panic
  | .ok i1 o => many1Loop (i1.length + 1) [o] i1

structure ExceptionTableEntry where
  start_pc : Nat
  end_pc : Nat
  handler_pc : Nat
  catch_type : Nat
  deriving DecidableEq

def ExceptionTableEntry.read : Parser ExceptionTableEntry :=
  pbind be_u16P fun start_pc =>
  pbind be_u16P fun end_pc =>
  pbind be_u16P fun handler_pc =>
  pbind be_u16P fun catch_type =>
  ppure ⟨start_pc, end_pc, handler_pc, catch_type⟩

structure LineNumberTableEntry where
  start_pc : Nat
  line_number : Nat
  deriving DecidableEq

def LineNumberTableEntry.read : Parser LineNumberTableEntry :=
  pbind be_u16P fun start_pc =>
  pbind be_u16P fun line_number =>
  ppure ⟨start_pc, line_number⟩

mutual
inductive Attribute where
  | Code (max_stack max_locals code_length : Nat) (code : List Instruction)
      (exception_table : List ExceptionTableEntry)
      (attributes : List AttributeInfo)
  | LineNumberTable (line_number_table : List LineNumberTableEntry)
  | SourceFile (source_file_index : Nat)
  | Unknown (bytes : Bytes)
inductive AttributeInfo where
  | mk (attribute_name_index : Nat) (attr : Attribute)
end

/-- The `CpInfo::Utf8 { value, .. } => value` arm of the match in
`AttributeInfo::read`; every other constructor falls to the error arm. -/
def cpUtf8 : CpInfo → Option (List Nat)
  | .Utf8 value => some value
  | _ => none

/-- Branch on an Option inside a parser (plain match, written as a
definition so its equations are available to the proofs below). -/
def optCase : Option γ → Parser β → (γ → Parser β) → Parser β
  | none, np, _ => np
  | some x, _, sp => sp x

/-- Branch on a sub-parser's outcome inside a parser (plain match, written
as a definition so its equations are available to the proofs below). -/
def resCase : PResult γ → (ErrKind → Parser β) → Parser β →
    (Bytes → γ → Parser β) → Parser β
  | .ok rest v, _, _, op => op rest v
  | .err k, ep, _, _ => ep k
  | .panic, _, pp, _ => pp

/-- Scalar values of the string literal matched by the Code arm. -/
def strCode : List Nat := [67, 111, 100, 101]

/-- Scalar values of the string literal matched by the LineNumberTable arm. -/
def strLineNumberTable : List Nat :=
  [76, 105, 110, 101, 78, 117, 109, 98, 101, 114, 84, 97, 98, 108, 101]

/-- Scalar values of the string literal matched by the SourceFile arm. -/
def strSourceFile : List Nat := [83, 111, 117, 114, 99, 101, 70, 105, 108, 101]

/-- `AttributeInfo::read`, with an explicit fuel bounding the attribute
nesting depth.  Every nesting level consumes at least six bytes (the name
index and the length word) before recursing, so a fuel exceeding the input
length never runs out; `attrRead_irrel` below makes that formal.  The
out-of-range constant-pool index is a Rust slice-index abort; a non-Utf8
entry is `Err::Error` with `ErrorKind::Fail`, exactly as in the source. -/
def attrRead (pool : List CpInfo) : Nat → Parser AttributeInfo
  | 0 => pfail .Eof
  | fuel + 1 =>
    pbind be_u16P fun attribute_name_index =>
    pbind be_u32P fun attribute_length =>
    optCase (pool.get? attribute_name_index) ppanic fun entry =>
    optCase (cpUtf8 entry) (pfail .Fail) fun attribute_name =>
    pbind
      (if attribute_name = strCode then
        pbind be_u16P fun max_stack =>
        pbind be_u16P fun max_locals =>
        pbind be_u32P fun code_length =>
        pbind (takeP code_length) fun code =>
        resCase (many1Insts code) pfail ppanic fun _ instructions =>
        pbind be_u16P fun exception_table_length =>
        pbind (countP ExceptionTableEntry.read exception_table_length)
          fun exception_table =>
        pbind be_u16P fun attributes_count =>
        pbind (countP (attrRead pool fuel) attributes_count)
          fun attributes =>
        ppure (.Code max_stack max_locals code_length instructions
          exception_table attributes)
      else if attribute_name = strLineNumberTable then
        pbind be_u16P fun line_number_table_length =>
        pbind (countP LineNumberTableEntry.read line_number_table_length)
          fun line_number_table =>
        ppure (.LineNumberTable line_number_table)
      else if attribute_name = strSourceFile then
        pbind be_u16P fun source_file_index =>
        ppure (.SourceFile source_file_index)
      else
        pbind (takeP attribute_length) fun bytes =>
        ppure (.Unknown bytes))
      fun attr => ppure (AttributeInfo.mk attribute_name_index attr)

/-- `AttributeInfo::read` as called from the rest of the decoder: the fuel
`input.length + 1` can never be exhausted (each nesting level consumes at
least six bytes). -/
def AttributeInfo.read (pool : List CpInfo) : Parser AttributeInfo :=
  fun input => attrRead pool (input.length + 1) input

/-- `FieldAccessFlags::from_bits_retain` keeps the raw 16-bit word, so the
flag set is modelled as the word itself. -/
structure FieldInfo where
  access_flags : Nat
  name_index : Nat
  descriptor_index : Nat
  attributes : List AttributeInfo

def FieldInfo.read (pool : List CpInfo) : Parser FieldInfo :=
  pbind be_u16P fun access_flags =>
  pbind be_u16P fun name_index =>
  pbind be_u16P fun descriptor_index =>
  pbind be_u16P fun attributes_count =>
  pbind (countP (AttributeInfo.read pool) attributes_count) fun attributes =>
  ppure ⟨access_flags, name_index, descriptor_index, attributes⟩

structure MethodInfo where
  access_flags : Nat
  name_index : Nat
  descriptor_index : Nat
  attributes : List AttributeInfo

def MethodInfo.read (pool : List CpInfo) : Parser MethodInfo :=
  pbind be_u16P fun access_flags =>
  pbind be_u16P fun name_index =>
  pbind be_u16P fun descriptor_index =>
  pbind be_u16P fun attributes_count =>
  pbind (countP (AttributeInfo.read pool) attributes_count) fun attributes =>
  ppure ⟨access_flags, name_index, descriptor_index, attributes⟩

structure ClassFile where
  magic : Nat
  minor_version : Nat
  major_version : Nat
  constant_pool_count : Nat
  constant_pool : List CpInfo
  access_flags : Nat
  this_class : Nat
  super_class : Nat
  interfaces : List Nat
  fields : List FieldInfo
  methods : List MethodInfo
  attributes : List AttributeInfo

/-- `ClassFile::read`.  The magic word is read and stored without any check.
`(constant_pool_count - 1) as usize` is u16 subtraction, overflow-checked in
a debug build: a zero count aborts the process before any entry is read.
`constant_pool.insert(0, CpInfo::Class { name_index: 0 })` prepends the
index-0 placeholder, and that grown pool is what every later step resolves
against. -/
def ClassFile.read : Parser ClassFile :=
  pbind be_u32P fun magic =>
  pbind be_u16P fun minor_version =>
  pbind be_u16P fun major_version =>
  pbind be_u16P fun constant_pool_count =>
  if constant_pool_count = 0 then ppanic
  else
    pbind (countP CpInfo.read (constant_pool_count - 1)) fun pool0 =>
    pbind be_u16P fun access_flags =>
    pbind be_u16P fun this_class =>
    pbind be_u16P fun super_class =>
    pbind be_u16P fun interfaces_count =>
    pbind (countP be_u16P interfaces_count) fun interfaces =>
    pbind be_u16P fun fields_count =>
    pbind (countP (FieldInfo.read (CpInfo.Class 0 :: pool0)) fields_count)
      fun fields =>
    pbind be_u16P fun methods_count =>
    pbind (countP (MethodInfo.read (CpInfo.Class 0 :: pool0)) methods_count)
      fun methods =>
    pbind be_u16P fun attributes_count =>
    pbind (countP (AttributeInfo.read (CpInfo.Class 0 :: pool0)) attributes_count)
      fun attributes =>
    ppure ⟨magic, minor_version, major_version, constant_pool_count,
      CpInfo.Class 0 :: pool0, access_flags, this_class, super_class,
      interfaces, fields, methods, attributes⟩

/-- A minimal valid class file: magic, versions 0/52, a one-slot constant
pool (count word 1, zero decoded entries), no interfaces, fields, methods or
attributes. -/
def b24 : Bytes :=
  [0xca, 0xfe, 0xba, 0xbe, 0, 0, 0, 52, 0, 1, 0, 0, 0, 0, 0, 0,
   0, 0, 0, 0, 0, 0, 0, 0]

/-- The tree `ClassFile.read` produces for `b24`. -/
def cf24 : ClassFile :=
  ⟨0xcafebabe, 0, 52, 1, [CpInfo.Class 0], 0, 0, 0, [], [], [], []⟩

/-! ### Consumption lemmas

`Consuming p` says a successful run of `p` leaves at most as much input as it
was given; the fixed-width primitives consume an exact number of bytes. -/

def Consuming (p : Parser α) : Prop :=
  ∀ l r a, p l = .ok r a → r.length ≤ l.length

theorem consuming_pure (a : α) : Consuming (ppure a) := by
  intro l r b h
  cases h
  exact le_refl _

theorem consuming_fail (k : ErrKind) : Consuming (pfail k : Parser α) := by
  intro l r b h
  cases h

theorem consuming_panic : Consuming (ppanic : Parser α) := by
  intro l r b h
  cases h

theorem consuming_u8 : Consuming u8P := by
  intro l r a h
  cases l with
  | nil => cases h
  | cons x xs => cases h; simp

theorem be16_len {l r : Bytes} {a : Nat} (h : be_u16P l = .ok r a) :
    l.length = r.length + 2 := by
  match l with
  | [] => cases h
  | [x] => cases h
  | x :: y :: xs => cases h; simp

theorem be32_len {l r : Bytes} {a : Nat} (h : be_u32P l = .ok r a) :
    l.length = r.length + 4 := by
  match l with
  | [] => cases h
  | [x] => cases h
  | [x, y] => cases h
  | [x, y, z] => cases h
  | x :: y :: z :: w :: xs => cases h; simp

theorem consuming_be16 : Consuming be_u16P := by
  intro l r a h
  rw [be16_len h]
  omega

theorem consuming_be32 : Consuming be_u32P := by
  intro l r a h
  rw [be32_len h]
  omega

theorem take_len {n : Nat} {l r : Bytes} {a : Bytes} (h : takeP n l = .ok r a) :
    r.length ≤ l.length := by
  unfold takeP at h
  by_cases hn : n ≤ l.length
  · rw [if_pos hn] at h
    cases h
    simp
  · rw [if_neg hn] at h
    cases h

theorem consuming_take (n : Nat) : Consuming (takeP n) :=
  fun _ _ _ h => take_len h

theorem consuming_bind {p : Parser α} {f : α → Parser β}
    (hp : Consuming p) (hf : ∀ a, Consuming (f a)) : Consuming (pbind p f) := by
  intro l r b h
  unfold pbind at h
  cases hP : p l with
  | ok r1 a =>
    rw [hP] at h
    exact le_trans (hf a r1 r b h) (hp l r1 a hP)
  | err k => rw [hP] at h; cases h
  | panic => rw [hP] at h; cases h

theorem consuming_count {p : Parser α} (hp : Consuming p) :
    ∀ n, Consuming (countP p n)
  | 0 => consuming_pure []
  | n + 1 =>
    consuming_bind hp fun _ =>
      consuming_bind (consuming_count hp n) fun _ => consuming_pure _

theorem consuming_ite {c : Prop} [Decidable c] {p q : Parser α}
    (hp : Consuming p) (hq : Consuming q) : Consuming (if c then p else q) := by
  by_cases h : c
  · rw [if_pos h]; exact hp
  · rw [if_neg h]; exact hq

theorem consuming_optCase {o : Option γ} {np : Parser β} {sp : γ → Parser β}
    (hn : Consuming np) (hs : ∀ x, Consuming (sp x)) :
    Consuming (optCase o np sp) := by
  cases o with
  | none => exact hn
  | some x => exact hs x

theorem consuming_resCase {x : PResult γ} {ep : ErrKind → Parser β}
    {pp : Parser β} {op : Bytes → γ → Parser β}
    (he : ∀ k, Consuming (ep k)) (hp : Consuming pp)
    (ho : ∀ r v, Consuming (op r v)) : Consuming (resCase x ep pp op) := by
  cases x with
  | ok r v => exact ho r v
  | err k => exact he k
  | panic => exact hp

theorem consuming_exc : Consuming ExceptionTableEntry.read := by
  unfold ExceptionTableEntry.read
  exact consuming_bind consuming_be16 fun _ =>
    consuming_bind consuming_be16 fun _ =>
    consuming_bind consuming_be16 fun _ =>
    consuming_bind consuming_be16 fun _ => consuming_pure _

theorem consuming_lnt : Consuming LineNumberTableEntry.read := by
  unfold LineNumberTableEntry.read
  exact consuming_bind consuming_be16 fun _ =>
    consuming_bind consuming_be16 fun _ => consuming_pure _

theorem consuming_attrRead (pool : List CpInfo) :
    ∀ fuel, Consuming (attrRead pool fuel) := by
  intro fuel
  induction fuel with
  | zero => exact consuming_fail _
  | succ fuel ih =>
    show Consuming (attrRead pool (fuel + 1))
    rw [attrRead]
    apply consuming_bind consuming_be16
    intro idx
    apply consuming_bind consuming_be32
    intro len
    apply consuming_optCase consuming_panic
    intro entry
    apply consuming_optCase (consuming_fail _)
    intro name
    apply consuming_bind ?_ (fun _ => consuming_pure _)
    apply consuming_ite
    · apply consuming_bind consuming_be16; intro _
      apply consuming_bind consuming_be16; intro _
      apply consuming_bind consuming_be32; intro cl
      apply consuming_bind (consuming_take cl); intro code
      apply consuming_resCase (fun k => consuming_fail k) consuming_panic
      intro rest instrs
      apply consuming_bind consuming_be16; intro etl
      apply consuming_bind (consuming_count consuming_exc etl); intro _
      apply consuming_bind consuming_be16; intro ac
      apply consuming_bind (consuming_count ih ac); intro _
      exact consuming_pure _
    apply consuming_ite
    · apply consuming_bind consuming_be16; intro n
      apply consuming_bind (consuming_count consuming_lnt n); intro _
      exact consuming_pure _
    apply consuming_ite
    · apply consuming_bind consuming_be16; intro _
      exact consuming_pure _
    · apply consuming_bind (consuming_take len); intro _
      exact consuming_pure _

/-! ### Truncation lemmas

`Trunc p` says: whenever `p` succeeds on `l ++ t`, running it on the prefix
`l` either succeeds with the same value (having consumed only bytes of `l`)
or fails with `Eof`.  Every parser of the decoder satisfies it, which is what
makes truncation of a fully-consumed input fail cleanly. -/

def Trunc (p : Parser α) : Prop :=
  ∀ l t r a, p (l ++ t) = .ok r a →
    (∃ r0, p l = .ok r0 a ∧ r = r0 ++ t) ∨ p l = .err .Eof

theorem trunc_pure (a : α) : Trunc (ppure a) := by
  intro l t r b h
  cases h
  exact Or.inl ⟨l, rfl, rfl⟩

theorem trunc_fail (k : ErrKind) : Trunc (pfail k : Parser α) := by
  intro l t r b h
  cases h

theorem trunc_panic : Trunc (ppanic : Parser α) := by
  intro l t r b h
  cases h

theorem trunc_u8 : Trunc u8P := by
  intro l t r a h
  cases l with
  | nil => exact Or.inr rfl
  | cons x xs =>
    simp only [List.cons_append, u8P] at h
    cases h
    exact Or.inl ⟨xs, rfl, rfl⟩

theorem trunc_be16 : Trunc be_u16P := by
  intro l t r a h
  match l with
  | [] => exact Or.inr rfl
  | [x] => exact Or.inr rfl
  | x :: y :: xs =>
    simp only [List.cons_append, be_u16P] at h
    cases h
    exact Or.inl ⟨xs, rfl, rfl⟩

theorem trunc_be32 : Trunc be_u32P := by
  intro l t r a h
  match l with
  | [] => exact Or.inr rfl
  | [x] => exact Or.inr rfl
  | [x, y] => exact Or.inr rfl
  | [x, y, z] => exact Or.inr rfl
  | x :: y :: z :: w :: xs =>
    simp only [List.cons_append, be_u32P] at h
    cases h
    exact Or.inl ⟨xs, rfl, rfl⟩

theorem trunc_take (n : Nat) : Trunc (takeP n) := by
  intro l t r a h
  unfold takeP at h ⊢
  by_cases hn : n ≤ l.length
  · have hl : n ≤ (l ++ t).length := by simp; omega
    rw [if_pos hl] at h
    cases h
    refine Or.inl ⟨l.drop n, ?_, ?_⟩
    · rw [if_pos hn, List.take_append_of_le_length hn]
    · rw [List.drop_append_of_le_length hn]
  · exact Or.inr (by rw [if_neg hn])

theorem trunc_bind {p : Parser α} {f : α → Parser β}
    (hp : Trunc p) (hf : ∀ a, Trunc (f a)) : Trunc (pbind p f) := by
  intro l t r b h
  unfold pbind at h
  cases hP : p (l ++ t) with
  | ok r1 a =>
    rw [hP] at h
    rcases hp l t r1 a hP with ⟨r0, h0, hr⟩ | h0
    · subst hr
      rcases hf a r0 t r b h with ⟨r0h, h0h, hrh⟩ | h0h
      · exact Or.inl ⟨r0h, by unfold pbind; rw [h0]; exact h0h, hrh⟩
      · exact Or.inr (by unfold pbind; rw [h0]; exact h0h)
    · exact Or.inr (by unfold pbind; rw [h0])
  | err k => rw [hP] at h; cases h
  | panic => rw [hP] at h; cases h

theorem trunc_count {p : Parser α} (hp : Trunc p) :
    ∀ n, Trunc (countP p n)
  | 0 => trunc_pure []
  | n + 1 =>
    trunc_bind hp fun _ =>
      trunc_bind (trunc_count hp n) fun _ => trunc_pure _

theorem trunc_ite {c : Prop} [Decidable c] {p q : Parser α}
    (hp : Trunc p) (hq : Trunc q) : Trunc (if c then p else q) := by
  by_cases h : c
  · rw [if_pos h]; exact hp
  · rw [if_neg h]; exact hq

theorem trunc_cpInfo : Trunc CpInfo.read := by
  unfold CpInfo.read
  apply trunc_bind trunc_u8
  intro tag
  apply trunc_ite
  · exact trunc_bind trunc_be16 fun _ => trunc_pure _
  apply trunc_ite
  · exact trunc_bind trunc_be16 fun _ => trunc_bind trunc_be16 fun _ => trunc_pure _
  apply trunc_ite
  · exact trunc_bind trunc_be16 fun _ => trunc_bind trunc_be16 fun _ => trunc_pure _
  apply trunc_ite
  · exact trunc_bind trunc_be16 fun _ => trunc_bind trunc_be16 fun _ => trunc_pure _
  apply trunc_ite
  · exact trunc_bind trunc_be16 fun _ => trunc_pure _
  apply trunc_ite
  · exact trunc_bind trunc_be32 fun _ => trunc_pure _
  apply trunc_ite
  · exact trunc_bind trunc_be32 fun _ => trunc_pure _
  apply trunc_ite
  · exact trunc_bind trunc_be32 fun _ => trunc_bind trunc_be32 fun _ => trunc_pure _
  apply trunc_ite
  · exact trunc_bind trunc_be32 fun _ => trunc_bind trunc_be32 fun _ => trunc_pure _
  apply trunc_ite
  · exact trunc_bind trunc_be16 fun _ => trunc_bind trunc_be16 fun _ => trunc_pure _
  apply trunc_ite
  · apply trunc_bind trunc_be16
    intro length
    apply trunc_bind (trunc_take length)
    intro bytes
    split
    · exact trunc_pure _
    · exact trunc_fail _
  apply trunc_ite
  · exact trunc_bind trunc_u8 fun _ => trunc_bind trunc_be16 fun _ => trunc_pure _
  apply trunc_ite
  · exact trunc_bind trunc_be16 fun _ => trunc_pure _
  apply trunc_ite
  · exact trunc_bind trunc_be16 fun _ => trunc_bind trunc_be16 fun _ => trunc_pure _
  · exact trunc_panic

theorem trunc_optCase {o : Option γ} {np : Parser β} {sp : γ → Parser β}
    (hn : Trunc np) (hs : ∀ x, Trunc (sp x)) :
    Trunc (optCase o np sp) := by
  cases o with
  | none => exact hn
  | some x => exact hs x

theorem trunc_resCase {x : PResult γ} {ep : ErrKind → Parser β}
    {pp : Parser β} {op : Bytes → γ → Parser β}
    (he : ∀ k, Trunc (ep k)) (hp : Trunc pp)
    (ho : ∀ r v, Trunc (op r v)) : Trunc (resCase x ep pp op) := by
  cases x with
  | ok r v => exact ho r v
  | err k => exact he k
  | panic => exact hp

theorem trunc_exc : Trunc ExceptionTableEntry.read := by
  unfold ExceptionTableEntry.read
  exact trunc_bind trunc_be16 fun _ =>
    trunc_bind trunc_be16 fun _ =>
    trunc_bind trunc_be16 fun _ =>
    trunc_bind trunc_be16 fun _ => trunc_pure _

theorem trunc_lnt : Trunc LineNumberTableEntry.read := by
  unfold LineNumberTableEntry.read
  exact trunc_bind trunc_be16 fun _ =>
    trunc_bind trunc_be16 fun _ => trunc_pure _

theorem trunc_attrRead (pool : List CpInfo) :
    ∀ fuel, Trunc (attrRead pool fuel) := by
  intro fuel
  induction fuel with
  | zero => exact trunc_fail _
  | succ fuel ih =>
    show Trunc (attrRead pool (fuel + 1))
    rw [attrRead]
    apply trunc_bind trunc_be16
    intro idx
    apply trunc_bind trunc_be32
    intro len
    apply trunc_optCase trunc_panic
    intro entry
    apply trunc_optCase (trunc_fail _)
    intro name
    apply trunc_bind ?_ (fun _ => trunc_pure _)
    apply trunc_ite
    · apply trunc_bind trunc_be16; intro _
      apply trunc_bind trunc_be16; intro _
      apply trunc_bind trunc_be32; intro cl
      apply trunc_bind (trunc_take cl); intro code
      apply trunc_resCase (fun k => trunc_fail k) trunc_panic
      intro rest instrs
      apply trunc_bind trunc_be16; intro etl
      apply trunc_bind (trunc_count trunc_exc etl); intro _
      apply trunc_bind trunc_be16; intro ac
      apply trunc_bind (trunc_count ih ac); intro _
      exact trunc_pure _
    apply trunc_ite
    · apply trunc_bind trunc_be16; intro n
      apply trunc_bind (trunc_count trunc_lnt n); intro _
      exact trunc_pure _
    apply trunc_ite
    · apply trunc_bind trunc_be16; intro _
      exact trunc_pure _
    · apply trunc_bind (trunc_take len); intro _
      exact trunc_pure _

/-! ### Fuel irrelevance for the attribute decoder

Any two fuels strictly above the input length give the same result, because
one nesting level of `attrRead` consumes at least 18 bytes before reaching
its nested attribute list. -/

theorem pbind_ok {p : Parser α} {f : α → Parser β} {l r : Bytes} {a : α}
    (h : p l = .ok r a) : pbind p f l = f a r := by
  unfold pbind
  rw [h]

theorem ppure_ok_val {a b : α} {l r : Bytes} (h : ppure a l = .ok r b) :
    b = a := by
  unfold ppure at h
  injection h with h1 h2
  exact h2.symm

theorem pbind_congr {p : Parser α} {f g : α → Parser β} (l : Bytes)
    (h : ∀ a r, p l = .ok r a → f a r = g a r) :
    pbind p f l = pbind p g l := by
  unfold pbind
  cases hp : p l with
  | ok r a => exact h a r hp
  | err k => rfl
  | panic => rfl

theorem pbind_congr_left {p q : Parser α} {f : α → Parser β} (l : Bytes)
    (h : p l = q l) : pbind p f l = pbind q f l := by
  unfold pbind
  rw [h]

theorem optCase_congr {o : Option γ} {np : Parser β} {sp sq : γ → Parser β}
    (l : Bytes) (h : ∀ x, sp x l = sq x l) :
    optCase o np sp l = optCase o np sq l := by
  cases o with
  | none => rfl
  | some x => exact h x

theorem resCase_congr {x : PResult γ} {ep : ErrKind → Parser β}
    {pp : Parser β} {op oq : Bytes → γ → Parser β} (l : Bytes)
    (h : ∀ r v, op r v l = oq r v l) :
    resCase x ep pp op l = resCase x ep pp oq l := by
  cases x with
  | ok r v => exact h r v
  | err k => rfl
  | panic => rfl

theorem countP_congr {p q : Parser α} (m : Nat) (hp : Consuming p)
    (h : ∀ i, i.length ≤ m → p i = q i) :
    ∀ n i, i.length ≤ m → countP p n i = countP q n i := by
  intro n
  induction n with
  | zero => intro i hi; rfl
  | succ n ih =>
    intro i hi
    show pbind p _ i = pbind q _ i
    unfold pbind
    rw [← h i hi]
    cases hpi : p i with
    | ok r a =>
      have hr : r.length ≤ m := le_trans (hp i r a hpi) hi
      exact pbind_congr_left r (ih r hr)
    | err k => rfl
    | panic => rfl

theorem attrRead_irrel (pool : List CpInfo) :
    ∀ f g l, l.length < f → l.length < g →
      attrRead pool f l = attrRead pool g l := by
  intro f
  induction f with
  | zero => intro g l hf hg; omega
  | succ f ih =>
    intro g l hf hg
    obtain ⟨g, rfl⟩ : ∃ gp, g = gp + 1 := ⟨g - 1, by omega⟩
    rw [attrRead, attrRead]
    apply pbind_congr
    intro idx l1 h1
    apply pbind_congr
    intro len l2 h2
    apply optCase_congr
    intro entry
    apply optCase_congr
    intro name
    apply pbind_congr_left
    by_cases hc : name = strCode
    · -- Code branch: the only place the fuel is consumed
      rw [if_pos hc, if_pos hc]
      apply pbind_congr
      intro ms l3 h3
      apply pbind_congr
      intro ml l4 h4
      apply pbind_congr
      intro cl l5 h5
      apply pbind_congr
      intro code l6 h6
      apply resCase_congr
      intro rest instrs
      apply pbind_congr
      intro etl l7 h7
      apply pbind_congr
      intro et l8 h8
      apply pbind_congr
      intro ac l9 h9
      apply pbind_congr_left
      have e1 := be16_len h1
      have e2 := be32_len h2
      have e3 := be16_len h3
      have e4 := be16_len h4
      have e5 := be32_len h5
      have e6 := take_len h6
      have e7 := be16_len h7
      have e8 := consuming_count consuming_exc etl l7 l8 et h8
      have e9 := be16_len h9
      exact countP_congr l9.length (consuming_attrRead pool f)
        (fun i hi => ih g i (by omega) (by omega)) ac l9 (le_refl _)
    · rw [if_neg hc, if_neg hc]

/-! ### Truncation for the whole decoder -/

theorem trunc_attrInfoRead (pool : List CpInfo) : Trunc (AttributeInfo.read pool) := by
  intro l t r a h
  unfold AttributeInfo.read at h ⊢
  have hlen : l.length < (l ++ t).length + 1 := by
    rw [List.length_append]; omega
  have h2 := trunc_attrRead pool ((l ++ t).length + 1) l t r a h
  have e : attrRead pool ((l ++ t).length + 1) l = attrRead pool (l.length + 1) l :=
    attrRead_irrel pool _ _ l hlen (Nat.lt_succ_self _)
  rw [e] at h2
  exact h2

theorem consuming_attrInfoRead (pool : List CpInfo) :
    Consuming (AttributeInfo.read pool) :=
  fun l r a h => consuming_attrRead pool (l.length + 1) l r a h

theorem trunc_fieldRead (pool : List CpInfo) : Trunc (FieldInfo.read pool) := by
  unfold FieldInfo.read
  apply trunc_bind trunc_be16; intro _
  apply trunc_bind trunc_be16; intro _
  apply trunc_bind trunc_be16; intro _
  apply trunc_bind trunc_be16; intro n
  apply trunc_bind (trunc_count (trunc_attrInfoRead pool) n); intro _
  exact trunc_pure _

theorem trunc_methodRead (pool : List CpInfo) : Trunc (MethodInfo.read pool) := by
  unfold MethodInfo.read
  apply trunc_bind trunc_be16; intro _
  apply trunc_bind trunc_be16; intro _
  apply trunc_bind trunc_be16; intro _
  apply trunc_bind trunc_be16; intro n
  apply trunc_bind (trunc_count (trunc_attrInfoRead pool) n); intro _
  exact trunc_pure _

theorem trunc_classRead : Trunc ClassFile.read := by
  unfold ClassFile.read
  apply trunc_bind trunc_be32; intro _
  apply trunc_bind trunc_be16; intro _
  apply trunc_bind trunc_be16; intro _
  apply trunc_bind trunc_be16; intro cpc
  apply trunc_ite
  · exact trunc_panic
  apply trunc_bind (trunc_count trunc_cpInfo _); intro pool0
  apply trunc_bind trunc_be16; intro _
  apply trunc_bind trunc_be16; intro _
  apply trunc_bind trunc_be16; intro _
  apply trunc_bind trunc_be16; intro ic
  apply trunc_bind (trunc_count trunc_be16 ic); intro _
  apply trunc_bind trunc_be16; intro fc
  apply trunc_bind (trunc_count (trunc_fieldRead _) fc); intro _
  apply trunc_bind trunc_be16; intro mc
  apply trunc_bind (trunc_count (trunc_methodRead _) mc); intro _
  apply trunc_bind trunc_be16; intro ac
  apply trunc_bind (trunc_count (trunc_attrInfoRead _) ac); intro _
  exact trunc_pure _

/-! ### The claims -/

/-- C1: the constant-table decoder does not implement the Long/Double
double-slot rule.  Decoding two entries from a stream holding a Long entry
(tag 5) followed by a Class entry (tag 7) puts the Class entry directly in
the slot after the Long — no reserved placeholder is inserted and the fill
index advances by one, so all later entries sit one slot earlier than the
format mandates. -/
theorem c1_long_no_placeholder :
    countP CpInfo.read 2 [5, 0, 0, 0, 0, 0, 0, 0, 1, 7, 0, 3] =
      .ok [] [CpInfo.Long 0 1, CpInfo.Class 3] := rfl

/-- C2 (counterexample to the claim as stated): a buffer that
`ClassFile.read` decodes successfully (with one trailing byte left over)
whose truncation by one byte also decodes successfully — truncating a valid
input does not always fail. -/
theorem c2_trailing_byte_counterexample :
    ClassFile.read (b24 ++ [7]) = .ok [7] cf24 ∧
    ClassFile.read ((b24 ++ [7]).dropLast) = .ok [] cf24 := ⟨rfl, rfl⟩

/-- C2 (amended): for every input buffer that `ClassFile.read` decodes
successfully consuming every byte, removing the final byte makes decoding
fail with the Eof (UnexpectedEnd) error kind — never a wrong success and
never a panic. -/
theorem c2_truncation_fails_eof (b : Bytes) (cf : ClassFile)
    (h : ClassFile.read b = .ok [] cf) :
    ClassFile.read b.dropLast = .err .Eof := by
  have hne : b ≠ [] := by
    intro he
    rw [he] at h
    have hnil : ClassFile.read ([] : Bytes) = .err .Eof := rfl
    rw [hnil] at h
    cases h
  have hsplit : b.dropLast ++ [b.getLast hne] = b :=
    List.dropLast_append_getLast hne
  rw [← hsplit] at h
  rcases trunc_classRead b.dropLast [b.getLast hne] [] cf h with ⟨r0, h0, hr⟩ | h0
  · have : ([] : Bytes).length = (r0 ++ [b.getLast hne]).length := congrArg _ hr
    simp at this
  · exact h0

/-- C2 witness: the amended theorem applied to the minimal valid file. -/
theorem c2_truncation_fails_eof_witness :
    ClassFile.read b24 = .ok [] cf24 ∧
    ClassFile.read b24.dropLast = .err .Eof :=
  ⟨rfl, c2_truncation_fails_eof b24 cf24 rfl⟩

/-- The minimal file with its magic word replaced by zero. -/
def b24bad : Bytes :=
  [0, 0, 0, 0, 0, 0, 0, 52, 0, 1, 0, 0, 0, 0, 0, 0,
   0, 0, 0, 0, 0, 0, 0, 0]

/-- C3: `ClassFile.read` never checks the magic word.  An input whose first
four bytes decode to 0 (which is not the format's constant 0xCAFEBABE)
decodes successfully, storing the wrong magic, instead of failing with a
BadMagic error. -/
theorem c3_wrong_magic_decodes :
    ClassFile.read b24bad =
      .ok [] ⟨0, 0, 52, 1, [CpInfo.Class 0], 0, 0, 0, [], [], [], []⟩ ∧
    (0 : Nat) ≠ 0xcafebabe := ⟨rfl, by decide⟩

/-- C4: on an unrecognized opcode byte (0 is not among 42, 43, 44, 45, 177,
183) `Instruction.read` aborts the process (the source's
panic!("unknown command")) instead of returning a typed UnknownOpcode
failure. -/
theorem c4_unknown_opcode_panics (rest : Bytes) :
    Instruction.read (0 :: rest) = .panic := rfl

/-- C5: on an unrecognized constant-pool tag byte (2 is not among 1, 3, 4,
5, 6, 7, 8, 9, 10, 11, 12, 15, 16, 18) `CpInfo.read` aborts the process
(the source's `_ => unreachable!()` arm) instead of returning a typed
UnknownConstantTag failure. -/
theorem c5_unknown_tag_panics (rest : Bytes) :
    CpInfo.read (2 :: rest) = .panic := rfl

/-- C6: an attribute whose name index (5) is out of bounds for the
constant table (length 1) makes `AttributeInfo.read` abort the process
(the source indexes the slice unchecked) instead of returning a typed
IndexOutOfRange failure. -/
theorem c6_oob_name_index_panics :
    AttributeInfo.read [CpInfo.Class 0] [0, 5, 0, 0, 0, 0] = .panic := rfl

/-- C7: an attribute whose name index is in bounds but resolves to a
non-Utf8 constant entry makes `AttributeInfo.read` fail with the typed
error the source raises there (nom ErrorKind::Fail, the code's rendering of
AttributeNameNotUtf8) — no panic and no dispatch to any attribute shape. -/
theorem c7_non_utf8_name_fails (pool : List CpInfo) (i0 i1 b2 b3 b4 b5 : Nat)
    (rest : Bytes) (entry : CpInfo)
    (hget : pool.get? (i0 * 256 + i1) = some entry)
    (hnu : cpUtf8 entry = none) :
    AttributeInfo.read pool (i0 :: i1 :: b2 :: b3 :: b4 :: b5 :: rest) =
      .err .Fail := by
  show attrRead pool (rest.length + 6 + 1) (i0 :: i1 :: b2 :: b3 :: b4 :: b5 :: rest) = .err .Fail
  rw [attrRead]
  rw [pbind_ok (show be_u16P (i0 :: i1 :: b2 :: b3 :: b4 :: b5 :: rest) =
    .ok (b2 :: b3 :: b4 :: b5 :: rest) (i0 * 256 + i1) from rfl)]
  rw [pbind_ok (show be_u32P (b2 :: b3 :: b4 :: b5 :: rest) =
    .ok rest (((b2 * 256 + b3) * 256 + b4) * 256 + b5) from rfl)]
  rw [hget]
  simp only [optCase]
  rw [hnu]
  simp only [optCase]
  rfl

/-- C7 witness: index 1 resolves to an Integer entry and the decoder
fails with the typed error. -/
theorem c7_non_utf8_name_fails_witness :
    AttributeInfo.read [CpInfo.Class 0, CpInfo.Integer 9] [0, 1, 0, 0, 0, 0] =
      .err .Fail :=
  c7_non_utf8_name_fails [CpInfo.Class 0, CpInfo.Integer 9] 0 1 0 0 0 0 []
    (CpInfo.Integer 9) rfl rfl

/-- C8: decoding is a pure function of the input buffer alone — the
embedding takes nothing but the bytes, so equal buffers give structurally
equal results (same tree and same remaining input). -/
theorem c8_deterministic (b1 b2 : Bytes) (h : b1 = b2) :
    ClassFile.read b1 = ClassFile.read b2 := by rw [h]

/-- C8 witness: the determinism theorem applied to the minimal valid file. -/
theorem c8_deterministic_witness : ClassFile.read b24 = ClassFile.read b24 :=
  c8_deterministic b24 b24 rfl

/-- C9: an input whose constant-pool count word (bytes 8 and 9) decodes to
zero drives `constant_pool_count - 1` into u16 underflow; under debug
(checked) arithmetic the decoder aborts the process instead of returning a
typed error. -/
theorem c9_zero_cp_count_panics (b0 b1 b2 b3 b4 b5 b6 b7 : Nat) (rest : Bytes) :
    ClassFile.read
      (b0 :: b1 :: b2 :: b3 :: b4 :: b5 :: b6 :: b7 :: 0 :: 0 :: rest) =
      .panic := rfl

/-- C9 witness: the all-zero ten-byte input aborts. -/
theorem c9_zero_cp_count_panics_witness :
    ClassFile.read [0, 0, 0, 0, 0, 0, 0, 0, 0, 0] = .panic :=
  c9_zero_cp_count_panics 0 0 0 0 0 0 0 0 []

/-- C10: opcode byte 42 decodes to `Aload2`, exactly as opcode byte 44
does, and no successful decode ever yields `Aload0`. -/
theorem c10_opcode42_is_aload2 (rest l r : Bytes) (i : Instruction) :
    Instruction.read (42 :: rest) = .ok rest .Aload2 ∧
    Instruction.read (44 :: rest) = .ok rest .Aload2 ∧
    (Instruction.read l = .ok r i → i ≠ .Aload0) := by
  refine ⟨rfl, rfl, ?_⟩
  intro h
  cases l with
  | nil =>
    rw [show Instruction.read [] = (.err .Eof : PResult Instruction) from rfl] at h
    cases h
  | cons b bs =>
    have hred : Instruction.read (b :: bs) =
        (if b = 42 then ppure Instruction.Aload2
        else if b = 43 then ppure Instruction.Aload1
        else if b = 44 then ppure Instruction.Aload2
        else if b = 45 then ppure Instruction.Aload3
        else if b = 177 then ppure Instruction.Return
        else if b = 183 then
          pbind u8P fun indexbyte1 => pbind u8P fun indexbyte2 =>
          ppure (.Invokespecial indexbyte1 indexbyte2)
        else ppanic) bs := rfl
    rw [hred] at h
    by_cases h42 : b = 42
    · rw [if_pos h42] at h; rw [ppure_ok_val h]; decide
    rw [if_neg h42] at h
    by_cases h43 : b = 43
    · rw [if_pos h43] at h; rw [ppure_ok_val h]; decide
    rw [if_neg h43] at h
    by_cases h44 : b = 44
    · rw [if_pos h44] at h; rw [ppure_ok_val h]; decide
    rw [if_neg h44] at h
    by_cases h45 : b = 45
    · rw [if_pos h45] at h; rw [ppure_ok_val h]; decide
    rw [if_neg h45] at h
    by_cases h177 : b = 177
    · rw [if_pos h177] at h; rw [ppure_ok_val h]; decide
    rw [if_neg h177] at h
    by_cases h183 : b = 183
    · rw [if_pos h183] at h
      cases bs with
      | nil =>
        simp only [pbind, u8P] at h
        exact PResult.noConfusion h
      | cons c cs =>
        cases cs with
        | nil =>
          simp only [pbind, u8P] at h
          exact PResult.noConfusion h
        | cons d ds =>
          simp only [pbind, u8P] at h
          rw [ppure_ok_val h]
          simp
    · rw [if_neg h183] at h
      simp only [ppanic] at h
      exact PResult.noConfusion h

/-- C10 witness: the theorem applied to the one-byte stream holding
opcode 42. -/
theorem c10_opcode42_is_aload2_witness :
    Instruction.read [42] = .ok [] Instruction.Aload2 ∧
    Instruction.Aload2 ≠ Instruction.Aload0 := by
  have h := c10_opcode42_is_aload2 [] [42] [] Instruction.Aload2
  exact ⟨h.1, h.2.2 h.1⟩

end Cgr
